import Mathlib

/-!
Verification development for the `xclips` clip-extraction tool
(`src/main.rs`).  The Rust source is shallowly embedded below: each Rust
function becomes a Lean function on `Nat` / `List Char` / `String`, machine
integers are modelled as `Nat` with explicit `% 2^32` where u32 arithmetic
can wrap (release-profile semantics), and the three `unwrap`-style abort
points of the parser are modelled by the `PResult.panic` outcome.
The regexes of the source are embedded as deterministic matchers; the
determinism arguments (why greedy capture groups are forced) are noted at
each matcher.
-/

set_option maxHeartbeats 1000000

/-- The ASCII decimal digits `0`-`9`.  The regex crate's class `\d` is
Unicode-aware (`\p{Nd}`): on the ASCII plane it matches exactly these
characters, while a non-ASCII decimal digit (e.g. U+0661) also matches the
source patterns and then aborts inside `parse::<u32>().unwrap()` (Rust's
`u32::from_str` accepts ASCII digits only) — the abort class of claim C3.
`isDig` therefore models `\d` exactly on ASCII characters, and every
theorem below that characterizes acceptance over a whole input universe
restricts that universe to ASCII inputs; theorems about ASCII digit groups
hold for the program as-is. -/
def isDig (c : Char) : Bool := decide (48 ≤ c.toNat) && decide (c.toNat ≤ 57)

/-- Numeric value of a digit character. -/
def digVal (c : Char) : Nat := c.toNat - 48

/-- Value of a digit string, as read left to right by Rust's `str::parse`. -/
def natOfDigits (ds : List Char) : Nat := ds.foldl (fun a c => 10 * a + digVal c) 0

/-- Model of `parse::<u32>()` applied to a nonempty all-digit capture group:
it succeeds exactly when the value fits in a `u32` and otherwise returns an
overflow error (which every call site of the source immediately `unwrap`s). -/
def u32parse (ds : List Char) : Option Nat :=
  if natOfDigits ds < 4294967296 then some (natOfDigits ds) else none

/-- Outcome of a fallible Rust computation: a value, a recoverable error
(`ParseErr` text or the fatal `eprintln`+`exit(1)` message of `main`), or a
process abort coming from a panicking `unwrap`. -/
inductive PResult (α : Type) where
  | ok : α → PResult α
  | err : String → PResult α
  | panic : PResult α
deriving DecidableEq

/-- `Timestamp` struct of the source (`seconds: u32, milliseconds: u32`). -/
structure Timestamp where
  seconds : Nat
  milliseconds : Nat
deriving DecidableEq

/-- The tail `\.?(\d{1,3})?$` shared by the three timestamp regexes, applied
to the characters remaining after the whole-second groups.  Returns the
fractional capture group (`none` when the group did not participate).
Note the dot is optional on its own: 1-3 trailing digits with no dot are
also accepted as the fractional group, and a lone trailing dot is accepted
with the group absent. -/
def matchFracEnd : List Char → Option (Option (List Char))
  | [] => some none
  | c :: r =>
    if c = '.' then
      if r = [] then some none
      else if r.all isDig = true ∧ r.length ≤ 3 then some (some r) else none
    else if (c :: r).all isDig = true ∧ (c :: r).length ≤ 3 then some (some (c :: r)) else none

/-- Matcher for `RE_S_MS = ^(\d+)\.?(\d{1,3})?$`.  The greedy `(\d+)` group
is forced to be the maximal digit prefix: were it shorter, the next input
character would be a digit, which neither `\.?` nor the end anchor can
consume without the fractional group, and when the fractional group takes
over trailing digits the string is all digits and the maximal-prefix match
also succeeds (and is the one the leftmost-first engine reports). -/
def matchSMS (cs : List Char) : Option (List Char × Option (List Char)) :=
  if cs.takeWhile isDig = [] then none
  else
    match matchFracEnd (cs.dropWhile isDig) with
    | some f => some (cs.takeWhile isDig, f)
    | none => none

/-- Matcher for `RE_M_S_MS = ^(\d+):(\d{2})\.?(\d{1,3})?$`.  `(\d+)` is the
maximal digit prefix (it must be followed by the literal `:`), and `(\d{2})`
is exactly the next two characters. -/
def matchMSMS (cs : List Char) : Option (List Char × List Char × Option (List Char)) :=
  if cs.takeWhile isDig = [] then none
  else
    match cs.dropWhile isDig with
    | ':' :: c1 :: c2 :: r3 =>
      if isDig c1 && isDig c2 then
        match matchFracEnd r3 with
        | some f => some (cs.takeWhile isDig, [c1, c2], f)
        | none => none
      else none
    | _ => none

/-- Matcher for `RE_H_M_S_MS = ^(\d+):(\d{2}):(\d{2})\.?(\d{1,3})?$`. -/
def matchHMSMS (cs : List Char) :
    Option (List Char × List Char × List Char × Option (List Char)) :=
  if cs.takeWhile isDig = [] then none
  else
    match cs.dropWhile isDig with
    | ':' :: c1 :: c2 :: ':' :: c3 :: c4 :: r3 =>
      if isDig c1 && isDig c2 && isDig c3 && isDig c4 then
        match matchFracEnd r3 with
        | some f => some (cs.takeWhile isDig, [c1, c2], [c3, c4], f)
        | none => none
      else none
    | _ => none

/-- `parse_ms` of the source: a fractional capture of `k` digits with value
`n` is worth `n * 10^(3-k)` milliseconds, a missing capture is worth 0.
(The inner `parse().unwrap()` cannot abort: the group has 1-3 digits, so its
value is at most 999.) -/
def parse_ms (f : Option (List Char)) : Nat :=
  match f with
  | none => 0
  | some v => natOfDigits v * 10 ^ (3 - v.length)

/-- `Timestamp::from_str` on the character list of the input: the three
regexes are tried in order; each whole-second capture group goes through
`parse::<u32>().unwrap()` (abort on overflow, modelled by `.panic`), and the
u32 products and sums `60*m + s` and `60*60*h + 60*m + s` wrap modulo 2^32
(release-profile arithmetic).  No match at all gives the `ParseErr`. -/
def Timestamp.fromChars (cs : List Char) : PResult Timestamp :=
  match matchSMS cs with
  | some (a, f) =>
    match u32parse a with
    | some s => .ok ⟨s, parse_ms f⟩
    | none => .panic
  | none =>
    match matchMSMS cs with
    | some (m, s2, f) =>
      match u32parse m, u32parse s2 with
      | some mv, some sv => .ok ⟨(60 * mv + sv) % 4294967296, parse_ms f⟩
      | _, _ => .panic
    | none =>
      match matchHMSMS cs with
      | some (h, m, s2, f) =>
        match u32parse h, u32parse m, u32parse s2 with
        | some hv, some mv, some sv =>
          .ok ⟨(60 * 60 * hv + 60 * mv + sv) % 4294967296, parse_ms f⟩
        | _, _, _ => .panic
      | none => .err "not a valid timestamp"

/-- `Timestamp::from_str` on a string. -/
def Timestamp.from_str (s : String) : PResult Timestamp := Timestamp.fromChars s.data

/-- Strict order on `Timestamp`, as produced by `derive(PartialOrd, Ord)`:
lexicographic on the fields in declaration order (`seconds`, then
`milliseconds`). -/
def Timestamp.ltb (a b : Timestamp) : Bool :=
  decide (a.seconds < b.seconds) ||
    (decide (a.seconds = b.seconds) && decide (a.milliseconds < b.milliseconds))

/-- Non-strict order on `Timestamp` (derived `Ord`, lexicographic). -/
def Timestamp.leb (a b : Timestamp) : Bool :=
  decide (a.seconds < b.seconds) ||
    (decide (a.seconds = b.seconds) && decide (a.milliseconds ≤ b.milliseconds))

/-- `Span` struct of the source.  The Rust field `end` is rendered `endT`
because `end` is a Lean keyword. -/
structure Span where
  start : Timestamp
  endT : Timestamp
deriving DecidableEq

/-- Non-strict order on `Span` (derived `Ord`): `start` compared first,
`endT` as tie-break. -/
def Span.leb (a b : Span) : Bool :=
  Timestamp.ltb a.start b.start ||
    (decide (a.start = b.start) && Timestamp.leb a.endT b.endT)

/-- Split a character list at the last occurrence of `sep`: the result of
the greedy pattern `^(.*)sep(.*)$` when it matches.  (Both `.*` groups are
greedy and the engine is leftmost-first, so the first group extends to the
last separator.) -/
def splitAtLast (sep : Char) (cs : List Char) : List Char × List Char :=
  (((cs.reverse.dropWhile (fun c => !(c == sep))).drop 1).reverse,
   (cs.reverse.takeWhile (fun c => !(c == sep))).reverse)

/-- `Span::from_str`: the pattern `^(.*)-(.*)$` matches exactly when the
input contains a `-` and no newline (`.` does not match `\n` and `$` anchors
at the end of the haystack), splitting at the last dash; both sides then go
through `Timestamp::from_str` with `?`-propagation of the `ParseErr`, and a
parsed pair with `start > end` is rejected. -/
def Span.fromChars (cs : List Char) : PResult Span :=
  if cs.contains '\n' || !(cs.contains '-') then .err "doesn't contain a dash"
  else
    match Timestamp.fromChars (splitAtLast '-' cs).1 with
    | .err e => .err e
    | .panic => .panic
    | .ok st =>
      match Timestamp.fromChars (splitAtLast '-' cs).2 with
      | .err e => .err e
      | .panic => .panic
      | .ok en => if Timestamp.ltb en st then .err "end is before start" else .ok ⟨st, en⟩

/-- `Span::from_str` on a string. -/
def Span.from_str (s : String) : PResult Span := Span.fromChars s.data

/-- The span-collection loops of `main` (lines 110-137): parse each line of
the timestamps file, then each `--clip` argument, aborting at the first
failure with the fatal message of `main`; a panic inside `from_str`
propagates as an abort. -/
def parse_spans : List String → PResult (List Span)
  | [] => .ok []
  | l :: ls =>
    match Span.fromChars l.data with
    | .ok sp =>
      match parse_spans ls with
      | .ok sps => .ok (sp :: sps)
      | .err e => .err e
      | .panic => .panic
    | .err _ => .err ("cannot parse " ++ l ++ " as a time span")
    | .panic => .panic

/-- `spans.sort()` of `main` line 138: stable sort by the derived `Ord`. -/
def sortSpans (l : List Span) : List Span := l.mergeSort Span.leb

/-- `log10_ceil` of the source: `digits` starts at 1 and the input is
divided by 10, adding a digit each time, while it exceeds 10. -/
def log10_ceil (n : Nat) : Nat :=
  if n > 10 then log10_ceil (n / 10) + 1 else 1
termination_by n
decreasing_by exact Nat.div_lt_self (by omega) (by decide)

/-- Rust's `{:0w$}` format specifier for an unsigned integer: decimal
rendering, left-padded with zeros to a minimum width of `w`. -/
def padZero (w n : Nat) : String :=
  if (toString n).length < w then
    String.mk (List.replicate (w - (toString n).length) '0') ++ toString n
  else toString n

/-- The `"{}.{:03}"` format shared by the `seek` and `time` strings of
`main` (lines 160 and 166). -/
def fmtSecMs (s ms : Nat) : String := toString s ++ "." ++ padZero 3 ms

/-- The `seek` string of `main` line 160. -/
def seek_str (sp : Span) : String := fmtSecMs sp.start.seconds sp.start.milliseconds

/-- `time_total_ms` of `main` lines 161-163, literally
`end.seconds*1000 + end.milliseconds - start.seconds*1000 + start.milliseconds`
with Rust's left-associative precedence.  The operands are u64 casts of u32
fields, so sums stay far below 2^64, and for every span produced by
`Span::from_str` the subtraction does not underflow (theorem `claim_C10`),
hence `Nat` arithmetic agrees exactly with the u64 arithmetic of the
source on every span the driver can see. -/
def time_total_ms (sp : Span) : Nat :=
  sp.endT.seconds * 1000 + sp.endT.milliseconds - sp.start.seconds * 1000 +
    sp.start.milliseconds

/-- The `time` (duration) string of `main` lines 164-166. -/
def time_str (sp : Span) : String :=
  fmtSecMs (time_total_ms sp / 1000) (time_total_ms sp % 1000)

/-- Per-span output filename of `main` lines 151-158: `"<base>_clip.<ext>"`
for a single span, `"<base>_clip<i>.<ext>"` with the index zero-padded to
`log10_ceil nspans` digits otherwise. -/
def output_filename (nspans : Nat) (base ext : String) (i : Nat) : String :=
  if nspans = 1 then base ++ "_clip." ++ ext
  else base ++ "_clip" ++ padZero (log10_ceil nspans) i ++ "." ++ ext

/-- One external command invocation: program name and argument list. -/
structure Cmd where
  program : String
  args : List String
deriving DecidableEq

/-- The `ffmpeg` invocation built for one span (`main` lines 168-169). -/
def extraction_cmd (nspans : Nat) (base ext input_file : String) (i : Nat) (sp : Span) : Cmd :=
  { program := "ffmpeg",
    args := ["-ss", seek_str sp, "-i", input_file, "-t", time_str sp, "-c", "copy",
             output_filename nspans base ext i] }

/-- The `^(.*)\.(.*)$` stem/extension split of `main` lines 143-150: the
pattern matches exactly when the name contains a `.` and no newline, and
splits at the last dot. -/
def split_ext (s : String) : Option (String × String) :=
  if s.data.contains '\n' || !(s.data.contains '.') then none
  else some (String.mk (splitAtLast '.' s.data).1, String.mk (splitAtLast '.' s.data).2)

/-- Functional model of `main` (lines 106-180): from the lines of the
timestamps file (`none` when `-f` was not given), the `--clip` values, the
`--output` override and the input `FILE` path, compute the sequence of
external invocations of a successful run.  `.err m` models `eprintln(m)`
followed by `exit(1)` — every error of `main` is raised before the first
invocation — and `.panic` models an abort inside parsing.  The external
tool's own exit status is outside the model (a failing invocation stops the
run after a prefix of the list). -/
def main_plan (timestamps_file : Option (List String)) (clip : List String)
    (output : Option String) (file : String) : PResult (List Cmd) :=
  match parse_spans ((timestamps_file.getD []) ++ clip) with
  | .err e => .err e
  | .panic => .panic
  | .ok spans0 =>
    match split_ext (output.getD file) with
    | none => .err "output filename does not have a file extension"
    | some (base, ext) =>
      .ok ((sortSpans spans0).enum.map
        (fun p => extraction_cmd (sortSpans spans0).length base ext file p.1 p.2))

/-- Spec-side description of the fractional tail of a timestamp token, from
the words of the (amended) claim C4: either nothing, or a `.` followed by at
most three digits (a lone trailing dot is accepted), or — the amendment —
one to three fractional digits with no separating dot. -/
def fracPart (f : List Char) : Prop :=
  f = [] ∨ (∃ d, f = '.' :: d ∧ d.all isDig = true ∧ d.length ≤ 3) ∨
    (f ≠ [] ∧ f.all isDig = true ∧ f.length ≤ 3)

/-- Spec-side format 1 of claim C4: `SS` (a nonempty digit string) or
`SS.fff` with 1-3 fractional digits, plus the trailing-dot form `SS.`. -/
def acceptsSS (cs : List Char) : Prop :=
  (cs ≠ [] ∧ cs.all isDig = true) ∨
    ∃ a d, cs = a ++ '.' :: d ∧ a ≠ [] ∧ a.all isDig = true ∧
      d.all isDig = true ∧ d.length ≤ 3

/-- Spec-side format 2 of (amended) claim C4: `MM:SS` with a two-digit
seconds group and an optional fractional tail. -/
def acceptsMS (cs : List Char) : Prop :=
  ∃ m s f, cs = m ++ ':' :: (s ++ f) ∧ m ≠ [] ∧ m.all isDig = true ∧
    s.length = 2 ∧ s.all isDig = true ∧ fracPart f

/-- Spec-side format 3 of (amended) claim C4: `HH:MM:SS` with two-digit
minute and second groups and an optional fractional tail. -/
def acceptsHMS (cs : List Char) : Prop :=
  ∃ h m s f, cs = h ++ ':' :: (m ++ ':' :: (s ++ f)) ∧ h ≠ [] ∧
    h.all isDig = true ∧ m.length = 2 ∧ m.all isDig = true ∧
    s.length = 2 ∧ s.all isDig = true ∧ fracPart f

lemma log10_ceil_of_le (n : Nat) (h : n ≤ 10) : log10_ceil n = 1 := by
  rw [log10_ceil]
  simp only [gt_iff_lt, if_neg (by omega : ¬ 10 < n)]

lemma log10_ceil_of_gt (n : Nat) (h : 10 < n) : log10_ceil n = log10_ceil (n / 10) + 1 := by
  rw [log10_ceil]
  simp only [gt_iff_lt, if_pos h]

lemma isDig_dot : isDig '.' = false := by decide

lemma isDig_colon : isDig ':' = false := by decide

lemma takeWhile_append_all {p : Char → Bool} {a : List Char} (b : List Char)
    (h : a.all p = true) : (a ++ b).takeWhile p = a ++ b.takeWhile p := by
  induction a with
  | nil => simp
  | cons c cs ih =>
    simp only [List.all_cons, Bool.and_eq_true] at h
    simp [List.takeWhile_cons, h.1, ih h.2]

lemma dropWhile_append_all {p : Char → Bool} {a : List Char} (b : List Char)
    (h : a.all p = true) : (a ++ b).dropWhile p = b.dropWhile p := by
  induction a with
  | nil => simp
  | cons c cs ih =>
    simp only [List.all_cons, Bool.and_eq_true] at h
    simp [List.dropWhile_cons, h.1, ih h.2]

lemma dropWhile_head_not {p : Char → Bool} {l : List Char} {c : Char} {cs : List Char}
    (h : l.dropWhile p = c :: cs) : p c = false := by
  induction l with
  | nil => simp at h
  | cons x xs ih =>
    rw [List.dropWhile_cons] at h
    by_cases hp : p x = true
    · exact ih (by rwa [if_pos hp] at h)
    · rw [if_neg hp] at h
      injection h with h1 h2
      subst h1
      simpa using hp

lemma contains_false_iff {l : List Char} {c : Char} : l.contains c = false ↔ c ∉ l := by
  simp [List.contains, List.elem_eq_mem]

lemma contains_true_iff {l : List Char} {c : Char} : l.contains c = true ↔ c ∈ l := by
  simp [List.contains, List.elem_eq_mem]

lemma splitAtLast_spec (sep : Char) (a b : List Char) (hb : sep ∉ b) :
    splitAtLast sep (a ++ sep :: b) = (a, b) := by
  unfold splitAtLast
  have hrev : (a ++ sep :: b).reverse = b.reverse ++ sep :: a.reverse := by simp
  have hall : b.reverse.all (fun c => !(c == sep)) = true := by
    rw [List.all_eq_true]
    intro x hx
    have hxb : x ∈ b := List.mem_reverse.mp hx
    have hne : x ≠ sep := fun he => hb (he ▸ hxb)
    simp [hne]
  rw [hrev, takeWhile_append_all _ hall, dropWhile_append_all _ hall]
  simp [List.takeWhile_cons, List.dropWhile_cons]

lemma Timestamp.ltb_iff {a b : Timestamp} : Timestamp.ltb a b = true ↔
    a.seconds < b.seconds ∨ (a.seconds = b.seconds ∧ a.milliseconds < b.milliseconds) := by
  simp [Timestamp.ltb]

lemma Timestamp.leb_iff {a b : Timestamp} : Timestamp.leb a b = true ↔
    a.seconds < b.seconds ∨ (a.seconds = b.seconds ∧ a.milliseconds ≤ b.milliseconds) := by
  simp [Timestamp.leb]

lemma Timestamp.leb_of_ltb_false {a b : Timestamp} (h : Timestamp.ltb b a = false) :
    Timestamp.leb a b = true := by
  simp only [Timestamp.ltb, Bool.or_eq_false_iff, Bool.and_eq_false_imp,
    decide_eq_false_iff_not, decide_eq_true_eq] at h
  simp only [Timestamp.leb, Bool.or_eq_true, Bool.and_eq_true,
    decide_eq_true_eq]
  omega

lemma span_ok_invariant {cs : List Char} {sp : Span} (h : Span.fromChars cs = .ok sp) :
    Timestamp.leb sp.start sp.endT = true := by
  unfold Span.fromChars at h
  split at h
  · exact absurd h (by simp)
  · split at h
    · exact absurd h (by simp)
    · exact absurd h (by simp)
    · split at h
      · exact absurd h (by simp)
      · exact absurd h (by simp)
      · split at h
        · exact absurd h (by simp)
        · rename_i st hst en hen hlt
          injection h with h1
          subst h1
          exact Timestamp.leb_of_ltb_false (by simpa using hlt)

lemma matchFracEnd_isSome_iff (r : List Char) : (matchFracEnd r).isSome = true ↔ fracPart r := by
  unfold fracPart
  cases r with
  | nil => simp [matchFracEnd]
  | cons c rest =>
    by_cases hc : c = '.'
    · subst hc
      cases rest with
      | nil => simp [matchFracEnd]
      | cons d ds =>
        by_cases hcond : (d :: ds).all isDig = true ∧ (d :: ds).length ≤ 3
        · have hm : matchFracEnd ('.' :: d :: ds) = some (some (d :: ds)) := by
            simp only [matchFracEnd]
            rw [if_pos trivial, if_neg (List.cons_ne_nil d ds), if_pos hcond]
          rw [hm]
          exact iff_of_true (by simp) (Or.inr (Or.inl ⟨d :: ds, rfl, hcond.1, hcond.2⟩))
        · have hm : matchFracEnd ('.' :: d :: ds) = none := by
            simp only [matchFracEnd]
            rw [if_pos trivial, if_neg (List.cons_ne_nil d ds), if_neg hcond]
          rw [hm]
          apply iff_of_false (by simp)
          intro hfp
          rcases hfp with h1 | ⟨x, hx, hxall, hxlen⟩ | ⟨_, hxall, _⟩
          · exact absurd h1 (by simp)
          · rw [List.cons_eq_cons] at hx
            exact hcond ⟨hx.2 ▸ hxall, hx.2 ▸ hxlen⟩
          · simp [List.all_cons, isDig_dot] at hxall
    · by_cases hcond : (c :: rest).all isDig = true ∧ (c :: rest).length ≤ 3
      · have hm : matchFracEnd (c :: rest) = some (some (c :: rest)) := by
          simp only [matchFracEnd]
          rw [if_neg hc, if_pos hcond]
        rw [hm]
        exact iff_of_true (by simp) (Or.inr (Or.inr ⟨by simp, hcond.1, hcond.2⟩))
      · have hm : matchFracEnd (c :: rest) = none := by
          simp only [matchFracEnd]
          rw [if_neg hc, if_neg hcond]
        rw [hm]
        apply iff_of_false (by simp)
        intro hfp
        rcases hfp with h1 | ⟨x, hx, _, _⟩ | ⟨_, hxall, hxlen⟩
        · exact absurd h1 (by simp)
        · rw [List.cons_eq_cons] at hx
          exact absurd hx.1 hc
        · exact hcond ⟨hxall, hxlen⟩

lemma matchSMS_isSome_iff (cs : List Char) : (matchSMS cs).isSome = true ↔ acceptsSS cs := by
  constructor
  · intro h
    unfold matchSMS at h
    by_cases h0 : cs.takeWhile isDig = []
    · rw [if_pos h0] at h; simp at h
    · rw [if_neg h0] at h
      cases hF : matchFracEnd (cs.dropWhile isDig) with
      | none => rw [hF] at h; simp at h
      | some f =>
        have hfrac : fracPart (cs.dropWhile isDig) :=
          (matchFracEnd_isSome_iff _).mp (by rw [hF]; rfl)
        have hcs := List.takeWhile_append_dropWhile isDig cs
        have hallA : (cs.takeWhile isDig).all isDig = true := List.all_takeWhile
        rcases hfrac with hnil | ⟨d, hd, hdall, hdlen⟩ | ⟨hne, hall, _⟩
        · left
          constructor
          · rw [← hcs, hnil, List.append_nil]; exact h0
          · rw [← hcs, hnil, List.append_nil]; exact hallA
        · exact Or.inr ⟨cs.takeWhile isDig, d, by rw [hd] at hcs; exact hcs.symm,
            h0, hallA, hdall, hdlen⟩
        · exfalso
          cases hdw : cs.dropWhile isDig with
          | nil => exact hne hdw
          | cons x xs =>
            have hx : isDig x = false := dropWhile_head_not hdw
            rw [hdw] at hall
            simp [List.all_cons, hx] at hall
  · intro h
    rcases h with ⟨hne, hall⟩ | ⟨a, d, hcs, hane, haall, hdall, hdlen⟩
    · have ht : cs.takeWhile isDig = cs := by
        have := takeWhile_append_all (p := isDig) (a := cs) [] hall
        simpa using this
      have hd : cs.dropWhile isDig = [] := by
        have := dropWhile_append_all (p := isDig) (a := cs) [] hall
        simpa using this
      unfold matchSMS
      rw [ht, if_neg hne, hd]
      simp [matchFracEnd]
    · subst hcs
      have ht : (a ++ '.' :: d).takeWhile isDig = a := by
        rw [takeWhile_append_all _ haall]
        simp [List.takeWhile_cons, isDig_dot]
      have hdw : (a ++ '.' :: d).dropWhile isDig = '.' :: d := by
        rw [dropWhile_append_all _ haall]
        simp [List.dropWhile_cons, isDig_dot]
      unfold matchSMS
      rw [ht, if_neg hane, hdw]
      cases hd0 : d with
      | nil => simp [matchFracEnd]
      | cons x xs =>
        rw [hd0] at hdall hdlen
        simp only [matchFracEnd, if_pos rfl, if_neg (List.cons_ne_nil x xs),
          if_pos (And.intro hdall hdlen)]
        rfl

lemma matchMSMS_isSome_iff (cs : List Char) : (matchMSMS cs).isSome = true ↔ acceptsMS cs := by
  constructor
  · intro h
    unfold matchMSMS at h
    by_cases h0 : cs.takeWhile isDig = []
    · rw [if_pos h0] at h; simp at h
    · rw [if_neg h0] at h
      have hcs := List.takeWhile_append_dropWhile isDig cs
      have hallA : (cs.takeWhile isDig).all isDig = true := List.all_takeWhile
      split at h
      · rename_i c1 c2 r3 heq
        by_cases hdig : (isDig c1 && isDig c2) = true
        · rw [if_pos hdig] at h
          cases hF : matchFracEnd r3 with
          | none => rw [hF] at h; simp at h
          | some f =>
            have hfp : fracPart r3 := (matchFracEnd_isSome_iff r3).mp (by rw [hF]; rfl)
            rw [heq] at hcs
            simp only [Bool.and_eq_true] at hdig
            exact ⟨cs.takeWhile isDig, [c1, c2], r3, by exact hcs.symm, h0, hallA,
              rfl, by simp [hdig.1, hdig.2], hfp⟩
        · rw [if_neg hdig] at h; simp at h
      · simp at h
  · intro h
    obtain ⟨m, s, f, hcs, hmne, hmall, hslen, hsall, hfp⟩ := h
    obtain ⟨c1, c2, rfl⟩ := List.length_eq_two.mp hslen
    subst hcs
    have ht : ((m ++ ':' :: ([c1, c2] ++ f))).takeWhile isDig = m := by
      rw [takeWhile_append_all _ hmall]
      simp [List.takeWhile_cons, isDig_colon]
    have hdw : ((m ++ ':' :: ([c1, c2] ++ f))).dropWhile isDig = ':' :: ([c1, c2] ++ f) := by
      rw [dropWhile_append_all _ hmall]
      simp [List.dropWhile_cons, isDig_colon]
    have hdig : (isDig c1 && isDig c2) = true := by
      simp only [List.all_cons, List.all_nil, Bool.and_eq_true, Bool.and_true] at hsall
      simp [hsall.1, hsall.2]
    have hF : (matchFracEnd f).isSome = true := (matchFracEnd_isSome_iff f).mpr hfp
    unfold matchMSMS
    rw [ht, if_neg hmne, hdw]
    simp only [List.cons_append, List.nil_append]
    rw [if_pos hdig]
    cases hFv : matchFracEnd f with
    | none => rw [hFv] at hF; simp at hF
    | some ff => simp

lemma matchHMSMS_isSome_iff (cs : List Char) : (matchHMSMS cs).isSome = true ↔ acceptsHMS cs := by
  constructor
  · intro h
    unfold matchHMSMS at h
    by_cases h0 : cs.takeWhile isDig = []
    · rw [if_pos h0] at h; simp at h
    · rw [if_neg h0] at h
      have hcs := List.takeWhile_append_dropWhile isDig cs
      have hallA : (cs.takeWhile isDig).all isDig = true := List.all_takeWhile
      split at h
      · rename_i c1 c2 c3 c4 r3 heq
        by_cases hdig : (isDig c1 && isDig c2 && isDig c3 && isDig c4) = true
        · rw [if_pos hdig] at h
          cases hF : matchFracEnd r3 with
          | none => rw [hF] at h; simp at h
          | some f =>
            have hfp : fracPart r3 := (matchFracEnd_isSome_iff r3).mp (by rw [hF]; rfl)
            rw [heq] at hcs
            simp only [Bool.and_eq_true] at hdig
            exact ⟨cs.takeWhile isDig, [c1, c2], [c3, c4], r3, by exact hcs.symm, h0, hallA,
              rfl, by simp [hdig.1.1.1, hdig.1.1.2], rfl, by simp [hdig.1.2, hdig.2], hfp⟩
        · rw [if_neg hdig] at h; simp at h
      · simp at h
  · intro h
    obtain ⟨hh, m, s, f, hcs, hhne, hhall, hmlen, hmall, hslen, hsall, hfp⟩ := h
    obtain ⟨c1, c2, rfl⟩ := List.length_eq_two.mp hmlen
    obtain ⟨c3, c4, rfl⟩ := List.length_eq_two.mp hslen
    subst hcs
    have ht : ((hh ++ ':' :: ([c1, c2] ++ ':' :: ([c3, c4] ++ f)))).takeWhile isDig = hh := by
      rw [takeWhile_append_all _ hhall]
      simp [List.takeWhile_cons, isDig_colon]
    have hdw : ((hh ++ ':' :: ([c1, c2] ++ ':' :: ([c3, c4] ++ f)))).dropWhile isDig =
        ':' :: ([c1, c2] ++ ':' :: ([c3, c4] ++ f)) := by
      rw [dropWhile_append_all _ hhall]
      simp [List.dropWhile_cons, isDig_colon]
    have hdig : (isDig c1 && isDig c2 && isDig c3 && isDig c4) = true := by
      simp only [List.all_cons, List.all_nil, Bool.and_eq_true, Bool.and_true] at hmall hsall
      simp [hmall.1, hmall.2, hsall.1, hsall.2]
    have hF : (matchFracEnd f).isSome = true := (matchFracEnd_isSome_iff f).mpr hfp
    unfold matchHMSMS
    rw [ht, if_neg hhne, hdw]
    simp only [List.cons_append, List.nil_append]
    rw [if_pos hdig]
    cases hFv : matchFracEnd f with
    | none => rw [hFv] at hF; simp at hF
    | some ff => simp

lemma digVal_le_9 {c : Char} (h : isDig c = true) : digVal c ≤ 9 := by
  simp only [isDig, Bool.and_eq_true, decide_eq_true_eq] at h
  simp only [digVal]
  omega

lemma natOfDigits_two (c1 c2 : Char) : natOfDigits [c1, c2] = 10 * digVal c1 + digVal c2 := by
  simp [natOfDigits, List.foldl]

lemma takeWhile_digits_of_all {a : List Char} (h : a.all isDig = true) :
    a.takeWhile isDig = a := by
  have := takeWhile_append_all (p := isDig) (a := a) [] h
  simpa using this

lemma dropWhile_digits_of_all {a : List Char} (h : a.all isDig = true) :
    a.dropWhile isDig = [] := by
  have := dropWhile_append_all (p := isDig) (a := a) [] h
  simpa using this

lemma matchFracEnd_colon (zs : List Char) : matchFracEnd (':' :: zs) = none := by
  have hnc : ¬((':' :: zs).all isDig = true ∧ (':' :: zs).length ≤ 3) := by
    intro hcond
    simp [List.all_cons, isDig_colon] at hcond
  simp only [matchFracEnd]
  rw [if_neg (by decide : ¬(':' : Char) = '.'), if_neg hnc]

lemma matchSMS_digits {a : List Char} (h1 : a ≠ []) (h2 : a.all isDig = true) :
    matchSMS a = some (a, none) := by
  unfold matchSMS
  rw [takeWhile_digits_of_all h2, dropWhile_digits_of_all h2, if_neg h1]
  rfl

lemma matchSMS_frac {a d : List Char} (h1 : a ≠ []) (h2 : a.all isDig = true)
    (h3 : d ≠ []) (h4 : d.all isDig = true) (h5 : d.length ≤ 3) :
    matchSMS (a ++ '.' :: d) = some (a, some d) := by
  unfold matchSMS
  have ht : (a ++ '.' :: d).takeWhile isDig = a := by
    rw [takeWhile_append_all _ h2]
    simp [List.takeWhile_cons, isDig_dot]
  have hdw : (a ++ '.' :: d).dropWhile isDig = '.' :: d := by
    rw [dropWhile_append_all _ h2]
    simp [List.dropWhile_cons, isDig_dot]
  rw [ht, if_neg h1, hdw]
  cases d with
  | nil => exact absurd rfl h3
  | cons x xs =>
    have hm : matchFracEnd ('.' :: x :: xs) = some (some (x :: xs)) := by
      simp only [matchFracEnd]
      rw [if_pos trivial, if_neg (List.cons_ne_nil x xs), if_pos ⟨h4, h5⟩]
    rw [hm]

lemma matchSMS_none_of_colon {m rest : List Char} (h : m.all isDig = true) :
    matchSMS (m ++ ':' :: rest) = none := by
  unfold matchSMS
  have ht : (m ++ ':' :: rest).takeWhile isDig = m := by
    rw [takeWhile_append_all _ h]
    simp [List.takeWhile_cons, isDig_colon]
  have hdw : (m ++ ':' :: rest).dropWhile isDig = ':' :: rest := by
    rw [dropWhile_append_all _ h]
    simp [List.dropWhile_cons, isDig_colon]
  rw [ht, hdw]
  by_cases h0 : m = []
  · rw [if_pos h0]
  · rw [if_neg h0, matchFracEnd_colon]

lemma matchMSMS_eq {m r3 : List Char} {c1 c2 : Char} (h1 : m ≠ []) (h2 : m.all isDig = true)
    (h3 : isDig c1 = true) (h4 : isDig c2 = true) :
    matchMSMS (m ++ ':' :: c1 :: c2 :: r3) =
      (match matchFracEnd r3 with
       | some f => some (m, [c1, c2], f)
       | none => none) := by
  unfold matchMSMS
  have ht : (m ++ ':' :: c1 :: c2 :: r3).takeWhile isDig = m := by
    rw [takeWhile_append_all _ h2]
    simp [List.takeWhile_cons, isDig_colon]
  have hdw : (m ++ ':' :: c1 :: c2 :: r3).dropWhile isDig = ':' :: c1 :: c2 :: r3 := by
    rw [dropWhile_append_all _ h2]
    simp [List.dropWhile_cons, isDig_colon]
  rw [ht, if_neg h1, hdw]
  show (if isDig c1 && isDig c2 then
          match matchFracEnd r3 with
          | some f => some (m, [c1, c2], f)
          | none => none
        else none) = _
  rw [if_pos (by simp [h3, h4])]

lemma matchHMSMS_eq {hh r3 : List Char} {c1 c2 c3 c4 : Char} (h1 : hh ≠ [])
    (h2 : hh.all isDig = true) (h3 : isDig c1 = true) (h4 : isDig c2 = true)
    (h5 : isDig c3 = true) (h6 : isDig c4 = true) :
    matchHMSMS (hh ++ ':' :: c1 :: c2 :: ':' :: c3 :: c4 :: r3) =
      (match matchFracEnd r3 with
       | some f => some (hh, [c1, c2], [c3, c4], f)
       | none => none) := by
  unfold matchHMSMS
  have ht : (hh ++ ':' :: c1 :: c2 :: ':' :: c3 :: c4 :: r3).takeWhile isDig = hh := by
    rw [takeWhile_append_all _ h2]
    simp [List.takeWhile_cons, isDig_colon]
  have hdw : (hh ++ ':' :: c1 :: c2 :: ':' :: c3 :: c4 :: r3).dropWhile isDig =
      ':' :: c1 :: c2 :: ':' :: c3 :: c4 :: r3 := by
    rw [dropWhile_append_all _ h2]
    simp [List.dropWhile_cons, isDig_colon]
  rw [ht, if_neg h1, hdw]
  show (if isDig c1 && isDig c2 && isDig c3 && isDig c4 then
          match matchFracEnd r3 with
          | some f => some (hh, [c1, c2], [c3, c4], f)
          | none => none
        else none) = _
  rw [if_pos (by simp [h3, h4, h5, h6])]

lemma fromChars_seconds_only {a : List Char} (h1 : a ≠ []) (h2 : a.all isDig = true)
    (h3 : natOfDigits a < 4294967296) :
    Timestamp.fromChars a = .ok ⟨natOfDigits a, 0⟩ := by
  unfold Timestamp.fromChars
  rw [matchSMS_digits h1 h2]
  simp only [u32parse, if_pos h3]
  rfl

lemma fromChars_seconds_frac {a d : List Char} (h1 : a ≠ []) (h2 : a.all isDig = true)
    (h3 : d ≠ []) (h4 : d.all isDig = true) (h5 : d.length ≤ 3)
    (h6 : natOfDigits a < 4294967296) :
    Timestamp.fromChars (a ++ '.' :: d) =
      .ok ⟨natOfDigits a, natOfDigits d * 10 ^ (3 - d.length)⟩ := by
  unfold Timestamp.fromChars
  rw [matchSMS_frac h1 h2 h3 h4 h5]
  simp only [u32parse, if_pos h6]
  rfl

lemma fromChars_min_sec {m : List Char} {c1 c2 : Char} (h1 : m ≠ []) (h2 : m.all isDig = true)
    (h3 : isDig c1 = true) (h4 : isDig c2 = true) (h5 : natOfDigits m < 4294967296) :
    Timestamp.fromChars (m ++ ':' :: c1 :: c2 :: []) =
      .ok ⟨(60 * natOfDigits m + natOfDigits [c1, c2]) % 4294967296, 0⟩ := by
  unfold Timestamp.fromChars
  rw [matchSMS_none_of_colon h2, matchMSMS_eq h1 h2 h3 h4]
  have hb : natOfDigits [c1, c2] < 4294967296 := by
    rw [natOfDigits_two]
    have := digVal_le_9 h3
    have := digVal_le_9 h4
    omega
  show (match u32parse m, u32parse [c1, c2] with
        | some mv, some sv =>
          PResult.ok (Timestamp.mk ((60 * mv + sv) % 4294967296) (parse_ms none))
        | _, _ => PResult.panic) = _
  simp only [u32parse, if_pos h5, if_pos hb]
  rfl

lemma fromChars_hour_min_sec {hh : List Char} {c1 c2 c3 c4 : Char} (h1 : hh ≠ [])
    (h2 : hh.all isDig = true) (h3 : isDig c1 = true) (h4 : isDig c2 = true)
    (h5 : isDig c3 = true) (h6 : isDig c4 = true) (h7 : natOfDigits hh < 4294967296) :
    Timestamp.fromChars (hh ++ ':' :: c1 :: c2 :: ':' :: c3 :: c4 :: []) =
      .ok ⟨(60 * 60 * natOfDigits hh + 60 * natOfDigits [c1, c2] + natOfDigits [c3, c4]) %
            4294967296, 0⟩ := by
  unfold Timestamp.fromChars
  rw [matchSMS_none_of_colon h2, matchMSMS_eq h1 h2 h3 h4, matchFracEnd_colon,
    matchHMSMS_eq h1 h2 h3 h4 h5 h6]
  have hb1 : natOfDigits [c1, c2] < 4294967296 := by
    rw [natOfDigits_two]
    have := digVal_le_9 h3
    have := digVal_le_9 h4
    omega
  have hb2 : natOfDigits [c3, c4] < 4294967296 := by
    rw [natOfDigits_two]
    have := digVal_le_9 h5
    have := digVal_le_9 h6
    omega
  show (match u32parse hh, u32parse [c1, c2], u32parse [c3, c4] with
        | some hv, some mv, some sv =>
          PResult.ok (Timestamp.mk ((60 * 60 * hv + 60 * mv + sv) % 4294967296) (parse_ms none))
        | _, _, _ => PResult.panic) = _
  simp only [u32parse, if_pos h7, if_pos hb1, if_pos hb2]
  rfl

lemma log10_ceil_pos (n : Nat) : 1 ≤ log10_ceil n := by
  rw [log10_ceil]
  split <;> omega

lemma log10_ceil_eq_one_iff (n : Nat) : log10_ceil n = 1 ↔ n ≤ 10 := by
  constructor
  · intro h
    by_contra hgt
    push_neg at hgt
    rw [log10_ceil_of_gt n hgt] at h
    have := log10_ceil_pos (n / 10)
    omega
  · exact log10_ceil_of_le n

lemma log10_ceil_interval (k : Nat) : ∀ (n : Nat),
    log10_ceil n = k + 2 ↔ 11 * 10 ^ k ≤ n ∧ n < 11 * 10 ^ (k + 1) := by
  induction k with
  | zero =>
    intro n
    norm_num
    by_cases h : 10 < n
    · rw [log10_ceil_of_gt n h]
      have hdiv := log10_ceil_eq_one_iff (n / 10)
      omega
    · rw [log10_ceil_of_le n (by omega)]
      omega
  | succ k ih =>
    intro n
    have hih := ih (n / 10)
    have hpow1 : (10 : Nat) ^ (k + 1) = 10 ^ k * 10 := pow_succ 10 k
    have hpow2 : (10 : Nat) ^ (k + 2) = 10 ^ (k + 1) * 10 := pow_succ 10 (k + 1)
    have hq : (10 : Nat) ≤ 10 ^ (k + 1) := by
      calc (10 : Nat) = 10 ^ 1 := (pow_one 10).symm
      _ ≤ 10 ^ (k + 1) := Nat.pow_le_pow_right (by omega) (by omega)
    by_cases h : 10 < n
    · rw [log10_ceil_of_gt n h]
      omega
    · rw [log10_ceil_of_le n (by omega)]
      omega

lemma Span.leb_trans (a b c : Span) (hab : Span.leb a b = true) (hbc : Span.leb b c = true) :
    Span.leb a c = true := by
  rcases a with ⟨⟨as1, am1⟩, ⟨as2, am2⟩⟩
  rcases b with ⟨⟨bs1, bm1⟩, ⟨bs2, bm2⟩⟩
  rcases c with ⟨⟨cs1, cm1⟩, ⟨cs2, cm2⟩⟩
  simp only [Span.leb, Timestamp.ltb, Timestamp.leb, Timestamp.mk.injEq, Bool.or_eq_true,
    Bool.and_eq_true, decide_eq_true_eq] at hab hbc ⊢
  omega

lemma Span.leb_total (a b : Span) : (Span.leb a b || Span.leb b a) = true := by
  rcases a with ⟨⟨as1, am1⟩, ⟨as2, am2⟩⟩
  rcases b with ⟨⟨bs1, bm1⟩, ⟨bs2, bm2⟩⟩
  simp only [Span.leb, Timestamp.ltb, Timestamp.leb, Timestamp.mk.injEq, Bool.or_eq_true,
    Bool.and_eq_true, decide_eq_true_eq]
  omega

lemma parse_spans_append {l1 l2 : List String} {s1 s2 : List Span}
    (h1 : parse_spans l1 = .ok s1) (h2 : parse_spans l2 = .ok s2) :
    parse_spans (l1 ++ l2) = .ok (s1 ++ s2) := by
  induction l1 generalizing s1 with
  | nil =>
    unfold parse_spans at h1
    injection h1 with h1'
    subst h1'
    simpa using h2
  | cons x xs ih =>
    unfold parse_spans at h1
    cases hx : Span.fromChars x.data with
    | ok sp =>
      rw [hx] at h1
      cases hrest : parse_spans xs with
      | ok sps =>
        rw [hrest] at h1
        injection h1 with h1'
        subst h1'
        show parse_spans (x :: (xs ++ l2)) = _
        unfold parse_spans
        rw [hx, ih hrest]
        rfl
      | err e => rw [hrest] at h1; exact absurd h1 (by simp)
      | panic => rw [hrest] at h1; exact absurd h1 (by simp)
    | err e => rw [hx] at h1; exact absurd h1 (by simp)
    | panic => rw [hx] at h1; exact absurd h1 (by simp)

/-- C3 (refuted, code bug): the timestamp parser is not total.  A seconds
group whose value does not fit in a u32 — such as `"4294967296"` = 2^32 —
matches `RE_S_MS`, and `captures[1].parse::<u32>().unwrap()` then aborts the
process instead of returning a parse error; the same abort is reachable
through span parsing. -/
theorem claim_C3_overflow_panics :
    Timestamp.from_str "4294967296" = .panic ∧ Span.from_str "0-4294967296" = .panic :=
  ⟨by decide, by decide⟩

/-- C4 counterexample: `"1:234"` matches none of the three claimed formats
(its fractional digit has no `.` separator), yet the parser accepts it as
1 minute, 23 seconds and 400 milliseconds rather than failing with the
"not a valid timestamp" error the claim requires. -/
theorem claim_C4_counterexample :
    Timestamp.from_str "1:234" = .ok ⟨83, 400⟩ ∧
      Timestamp.from_str "1:234" ≠ .err "not a valid timestamp" :=
  ⟨by decide, by decide⟩

/-- C4 (amended): among ASCII inputs — where the Unicode-aware `\d` of the
source patterns coincides exactly with the digits `0`-`9` — the parser
fails, and fails with exactly the message "not a valid timestamp",
precisely on the inputs outside the three recognized formats, where in the
`MM:SS` and `HH:MM:SS` formats the `.` separator is itself optional even
when fractional digits are present (so `"1:234"` is accepted as 1:23.4);
a lone trailing dot is accepted with zero fractional digits.  (Inputs
inside the formats produce a `Timestamp`, or abort when a whole-second
group overflows the machine range; a non-ASCII input containing a Unicode
decimal digit can match a pattern and abort in the u32 parse — both aborts
are the bug of claim C3, not parse errors.) -/
theorem claim_C4_amended (s e : String) (_hascii : ∀ c ∈ s.data, c.toNat < 128) :
    Timestamp.from_str s = .err e ↔
      (e = "not a valid timestamp" ∧
        ¬ (acceptsSS s.data ∨ acceptsMS s.data ∨ acceptsHMS s.data)) := by
  unfold Timestamp.from_str Timestamp.fromChars
  cases h1 : matchSMS s.data with
  | some v =>
    have hL1 : acceptsSS s.data := (matchSMS_isSome_iff _).mp (by rw [h1]; rfl)
    obtain ⟨a, f⟩ := v
    apply iff_of_false
    · cases h2 : u32parse a <;> simp [h2]
    · intro hc
      exact hc.2 (Or.inl hL1)
  | none =>
    cases h2 : matchMSMS s.data with
    | some v =>
      have hL2 : acceptsMS s.data := (matchMSMS_isSome_iff _).mp (by rw [h2]; rfl)
      obtain ⟨m, s2, f⟩ := v
      apply iff_of_false
      · cases hm : u32parse m <;> cases hs : u32parse s2 <;> simp [hm, hs]
      · intro hc
        exact hc.2 (Or.inr (Or.inl hL2))
    | none =>
      cases h3 : matchHMSMS s.data with
      | some v =>
        have hL3 : acceptsHMS s.data := (matchHMSMS_isSome_iff _).mp (by rw [h3]; rfl)
        obtain ⟨hh, m, s2, f⟩ := v
        apply iff_of_false
        · cases ha : u32parse hh <;> cases hb : u32parse m <;> cases hc2 : u32parse s2 <;>
            simp [ha, hb, hc2]
        · intro hc
          exact hc.2 (Or.inr (Or.inr hL3))
      | none =>
        have nL1 : ¬ acceptsSS s.data := by
          rw [← matchSMS_isSome_iff]
          simp [h1]
        have nL2 : ¬ acceptsMS s.data := by
          rw [← matchMSMS_isSome_iff]
          simp [h2]
        have nL3 : ¬ acceptsHMS s.data := by
          rw [← matchHMSMS_isSome_iff]
          simp [h3]
        simp only [PResult.err.injEq]
        constructor
        · intro he
          refine ⟨he.symm, ?_⟩
          rintro (h | h | h)
          exacts [nL1 h, nL2 h, nL3 h]
        · intro hc
          exact hc.1.symm

/-- C4 witness: the theorem applied to the ASCII input `"abc"`, which
matches no pattern and fails with the parse error. -/
theorem claim_C4_witness :
    Timestamp.from_str "abc" = .err "not a valid timestamp" ↔
      ("not a valid timestamp" = "not a valid timestamp" ∧
        ¬ (acceptsSS "abc".data ∨ acceptsMS "abc".data ∨ acceptsHMS "abc".data)) :=
  claim_C4_amended "abc" "not a valid timestamp" (by decide)

/-- C7: fixed-point scaling of the fractional part.  A fractional group of
`k` digits (1 ≤ k ≤ 3) with value `n` contributes `n * 10^(3-k)`
milliseconds, a missing fractional part contributes 0, and in particular
`"1.5"`, `"1.05"`, `"1.005"` parse to 500, 50 and 5 milliseconds. -/
theorem claim_C7_frac_scaling :
    (∀ (a d : List Char), a ≠ [] → a.all isDig = true → d ≠ [] → d.all isDig = true →
        d.length ≤ 3 → natOfDigits a < 4294967296 →
        Timestamp.fromChars (a ++ '.' :: d) =
          .ok ⟨natOfDigits a, natOfDigits d * 10 ^ (3 - d.length)⟩) ∧
    (∀ (a : List Char), a ≠ [] → a.all isDig = true → natOfDigits a < 4294967296 →
        Timestamp.fromChars a = .ok ⟨natOfDigits a, 0⟩) ∧
    Timestamp.from_str "1.5" = .ok ⟨1, 500⟩ ∧
    Timestamp.from_str "1.05" = .ok ⟨1, 50⟩ ∧
    Timestamp.from_str "1.005" = .ok ⟨1, 5⟩ := by
  refine ⟨?_, ?_, by decide, by decide, by decide⟩
  · intro a d h1 h2 h3 h4 h5 h6
    exact fromChars_seconds_frac h1 h2 h3 h4 h5 h6
  · intro a h1 h2 h3
    exact fromChars_seconds_only h1 h2 h3

/-- C7 witness: the general clause applied at `"1.05"`. -/
theorem claim_C7_witness :
    Timestamp.fromChars (['1'] ++ '.' :: ['0', '5']) = .ok ⟨1, 50⟩ := by
  have h := claim_C7_frac_scaling.1 ['1'] ['0', '5'] (by decide) (by decide) (by decide)
    (by decide) (by decide) (by decide)
  exact h.trans (by decide)

/-- C8: minute and second sub-fields are used as linear multipliers with no
below-60 validation: any unsigned-integer minutes group and any two-digit
seconds group (including values 60-99) are accepted, total seconds being
`minutes*60 + seconds` resp. `hours*3600 + minutes*60 + seconds` (as long
as the values fit the machine range, where the u32 arithmetic is exact);
`"75:00"` means 4500 seconds and `"00:75"` means 75 seconds. -/
theorem claim_C8_no_sixty_validation :
    (∀ (m : List Char) (c1 c2 : Char), m ≠ [] → m.all isDig = true →
        isDig c1 = true → isDig c2 = true → natOfDigits m < 4294967296 →
        60 * natOfDigits m + natOfDigits [c1, c2] < 4294967296 →
        Timestamp.fromChars (m ++ ':' :: [c1, c2]) =
          .ok ⟨natOfDigits m * 60 + natOfDigits [c1, c2], 0⟩) ∧
    (∀ (hh : List Char) (c1 c2 c3 c4 : Char), hh ≠ [] → hh.all isDig = true →
        isDig c1 = true → isDig c2 = true → isDig c3 = true → isDig c4 = true →
        natOfDigits hh < 4294967296 →
        60 * 60 * natOfDigits hh + 60 * natOfDigits [c1, c2] + natOfDigits [c3, c4] <
          4294967296 →
        Timestamp.fromChars (hh ++ ':' :: c1 :: c2 :: ':' :: [c3, c4]) =
          .ok ⟨natOfDigits hh * 3600 + natOfDigits [c1, c2] * 60 + natOfDigits [c3, c4], 0⟩) ∧
    Timestamp.from_str "75:00" = .ok ⟨4500, 0⟩ ∧
    Timestamp.from_str "00:75" = .ok ⟨75, 0⟩ := by
  refine ⟨?_, ?_, by decide, by decide⟩
  · intro m c1 c2 h1 h2 h3 h4 h5 hb
    rw [fromChars_min_sec h1 h2 h3 h4 h5]
    simp only [PResult.ok.injEq, Timestamp.mk.injEq]
    exact ⟨by omega, trivial⟩
  · intro hh c1 c2 c3 c4 h1 h2 h3 h4 h5 h6 h7 hb
    rw [fromChars_hour_min_sec h1 h2 h3 h4 h5 h6 h7]
    simp only [PResult.ok.injEq, Timestamp.mk.injEq]
    exact ⟨by omega, trivial⟩

/-- C8 witness: the minutes clause applied at `"75:00"` (75 minutes, not
validated below 60). -/
theorem claim_C8_witness :
    Timestamp.fromChars (['7', '5'] ++ ':' :: ['0', '0']) = .ok ⟨4500, 0⟩ := by
  have h := claim_C8_no_sixty_validation.1 ['7', '5'] '0' '0' (by decide) (by decide)
    (by decide) (by decide) (by decide) (by decide)
  exact h.trans (by decide)

/-- C10: for every span produced by `Span::from_str` the u64 subtraction of
the duration computation never underflows — the minuend
`end.seconds*1000 + end.milliseconds` dominates the subtrahend
`start.seconds*1000` — and consequently `time_total_ms` computes the exact
quirk-formula value (its truncated subtraction loses nothing). -/
theorem claim_C10_no_underflow (s : String) (sp : Span) (h : Span.from_str s = .ok sp) :
    sp.start.seconds * 1000 ≤ sp.endT.seconds * 1000 + sp.endT.milliseconds ∧
    time_total_ms sp + sp.start.seconds * 1000 =
      sp.endT.seconds * 1000 + sp.endT.milliseconds + sp.start.milliseconds := by
  have hle := span_ok_invariant h
  rw [Timestamp.leb_iff] at hle
  unfold time_total_ms
  exact ⟨by omega, by omega⟩

/-- C10 witness: the theorem applied to the parse of `"1-2.5"`. -/
theorem claim_C10_witness :
    time_total_ms ⟨⟨1, 0⟩, ⟨2, 500⟩⟩ + 1 * 1000 = 2 * 1000 + 500 + 0 := by
  have h := claim_C10_no_underflow "1-2.5" ⟨⟨1, 0⟩, ⟨2, 500⟩⟩ (by decide)
  exact h.2

/-- C1: on every span satisfying the parse invariant the driver's command
line carries `-ss` with the seek string and `-t` with the duration string,
where the total duration in milliseconds is the literal precedence-quirk
value `((end.seconds*1000 + end.milliseconds) - start.seconds*1000) +
start.milliseconds` and the duration string is rendered by the same
`"seconds.milliseconds"` (3-digit-padded) format as the seek string; the
last two conjuncts exhibit, at the span 1.5s-2.0s, that the quirk value
(1500) differs from the naive `end_ms - start_ms` (500). -/
theorem claim_C1_duration_formula (nspans : Nat) (base ext inp : String) (i : Nat) (sp : Span)
    (_h : Timestamp.leb sp.start sp.endT = true) :
    (extraction_cmd nspans base ext inp i sp).args =
      ["-ss", fmtSecMs sp.start.seconds sp.start.milliseconds, "-i", inp, "-t",
        fmtSecMs
          ((((sp.endT.seconds * 1000 + sp.endT.milliseconds) - sp.start.seconds * 1000) +
              sp.start.milliseconds) / 1000)
          ((((sp.endT.seconds * 1000 + sp.endT.milliseconds) - sp.start.seconds * 1000) +
              sp.start.milliseconds) % 1000),
        "-c", "copy", output_filename nspans base ext i] ∧
    time_total_ms ⟨⟨1, 500⟩, ⟨2, 0⟩⟩ = 1500 ∧
    (2 * 1000 + 0) - (1 * 1000 + 500) = 500 :=
  ⟨rfl, by decide, by decide⟩

/-- C1 witness: the `-t` argument of the command built for the span
1.5s-2.0s is the duration string "1.500" (the quirk value 1500 ms). -/
theorem claim_C1_witness :
    (extraction_cmd 1 "movie" "mp4" "movie.mp4" 0 ⟨⟨1, 500⟩, ⟨2, 0⟩⟩).args.get? 5 =
      some (fmtSecMs 1 500) := by
  have h := claim_C1_duration_formula 1 "movie" "mp4" "movie.mp4" 0 ⟨⟨1, 500⟩, ⟨2, 0⟩⟩ (by decide)
  rw [h.1]
  decide

/-- C2 counterexample: with N = 101 spans the claimed width
`ceil(log10 101)` is 3, but the code's `log10_ceil` yields 2: index 0 is
rendered `"movie_clip00.mp4"`, not the `"movie_clip000.mp4"` the claimed
width would produce. -/
theorem claim_C2_counterexample :
    log10_ceil 101 = 2 ∧ Nat.clog 10 101 = 3 ∧
      output_filename 101 "movie" "mp4" 0 = "movie_clip00.mp4" ∧
      output_filename 101 "movie" "mp4" 0 ≠ "movie_clip000.mp4" := by
  have h1 : log10_ceil 101 = 2 := by
    rw [log10_ceil_of_gt 101 (by omega)]
    norm_num [log10_ceil_of_le]
  have h2 : Nat.clog 10 101 = 3 := by
    have ha : Nat.clog 10 101 ≤ 3 := (Nat.le_pow_iff_clog_le (by norm_num)).mp (by norm_num)
    have hc : ¬ (Nat.clog 10 101 ≤ 2) := fun hcc =>
      absurd ((Nat.le_pow_iff_clog_le (by norm_num)).mpr hcc) (by norm_num)
    omega
  refine ⟨h1, h2, ?_, ?_⟩
  · simp only [output_filename, h1]
    decide
  · simp only [output_filename, h1]
    decide

/-- C2 (amended): one span yields `"<stem>_clip.<ext>"`; N > 1 spans yield
`"<stem>_clip<i>.<ext>"` with the 0-based sorted-position index zero-padded
to `log10_ceil N` digits, where the width is 1 for N ≤ 10 and equals k+2
exactly when `11·10^k ≤ N < 11·10^(k+1)` — it grows at N = 11, 110, 1100,
…; 3 spans give `clip0`..`clip2` and 12 spans give two-digit indices. -/
theorem claim_C2_amended :
    (∀ (base ext : String) (i : Nat), output_filename 1 base ext i = base ++ "_clip." ++ ext) ∧
    (∀ (n : Nat) (base ext : String) (i : Nat), n ≠ 1 →
        output_filename n base ext i =
          base ++ "_clip" ++ padZero (log10_ceil n) i ++ "." ++ ext) ∧
    (∀ n : Nat, n ≤ 10 → log10_ceil n = 1) ∧
    (∀ n k : Nat, log10_ceil n = k + 2 ↔ 11 * 10 ^ k ≤ n ∧ n < 11 * 10 ^ (k + 1)) ∧
    (output_filename 3 "movie" "mp4" 0 = "movie_clip0.mp4" ∧
      output_filename 3 "movie" "mp4" 1 = "movie_clip1.mp4" ∧
      output_filename 3 "movie" "mp4" 2 = "movie_clip2.mp4") ∧
    (output_filename 12 "movie" "mp4" 0 = "movie_clip00.mp4" ∧
      output_filename 12 "movie" "mp4" 11 = "movie_clip11.mp4") := by
  have h3 : log10_ceil 3 = 1 := log10_ceil_of_le 3 (by omega)
  have h12 : log10_ceil 12 = 2 := by
    rw [log10_ceil_of_gt 12 (by omega)]
    norm_num [log10_ceil_of_le]
  refine ⟨?_, ?_, ?_, ?_, ?_, ?_⟩
  · intro base ext i
    simp [output_filename]
  · intro n base ext i hn
    simp [output_filename, hn]
  · exact fun n h => log10_ceil_of_le n h
  · exact fun n k => log10_ceil_interval k n
  · exact ⟨by simp only [output_filename, h3]; decide, by simp only [output_filename, h3]; decide,
      by simp only [output_filename, h3]; decide⟩
  · exact ⟨by simp only [output_filename, h12]; decide,
      by simp only [output_filename, h12]; decide⟩

/-- C2 witness: the multi-span naming clause applied at N = 12, i = 3. -/
theorem claim_C2_witness :
    output_filename 12 "movie" "mp4" 3 =
      "movie" ++ "_clip" ++ padZero (log10_ceil 12) 3 ++ "." ++ "mp4" :=
  claim_C2_amended.2.1 12 "movie" "mp4" 3 (by decide)

/-- C5 counterexample: a zero-span run whose FILE path has no `.` exits 1
with the missing-extension message (the stem/extension split runs before
the span loop), contradicting the claim's "exits 0 for every FILE path";
the tool is still invoked zero times. -/
theorem claim_C5_counterexample :
    main_plan none [] none "movie" = .err "output filename does not have a file extension" ∧
      main_plan none [] none "movie" ≠ .ok [] := by
  have h : main_plan none [] none "movie" =
      .err "output filename does not have a file extension" := by
    simp [main_plan, parse_spans, sortSpans, split_ext]
  exact ⟨h, by rw [h]; simp⟩

/-- C5 (amended): a run with no timestamps file and no clip options invokes
the external tool zero times; it exits 0 whenever the output-naming basis
(FILE, or `--output` when given) splits into stem and extension, and
otherwise exits 1 with the missing-extension message, still without
invoking the tool. -/
theorem claim_C5_zero_spans (file : String) (output : Option String) :
    (∀ base ext, split_ext (output.getD file) = some (base, ext) →
        main_plan none [] output file = .ok []) ∧
    (split_ext (output.getD file) = none →
        main_plan none [] output file =
          .err "output filename does not have a file extension") := by
  constructor
  · intro base ext hse
    simp [main_plan, parse_spans, sortSpans, hse]
  · intro hse
    simp [main_plan, parse_spans, sortSpans, hse]

/-- C5 witness: the exit-0 clause applied at FILE = "movie.mp4". -/
theorem claim_C5_witness : main_plan none [] none "movie.mp4" = .ok [] :=
  (claim_C5_zero_spans "movie.mp4" none).1 "movie" "mp4" (by decide)

/-- C6 counterexample: `"1-2\n"` contains a dash, and by the claim the span
parser should split at it and propagate the timestamp failure of `"2\n"`
(which is "not a valid timestamp"); instead the span pattern cannot match
the newline and the parser fails with "doesn't contain a dash". -/
theorem claim_C6_counterexample :
    ("1-2\n".data.contains '-' = true) ∧
      Span.from_str "1-2\n" = .err "doesn't contain a dash" ∧
      Timestamp.from_str "2\n" = .err "not a valid timestamp" :=
  ⟨by decide, by decide, by decide⟩

/-- C6 (amended): for newline-free inputs, span parsing splits at the last
`-` (everything before it is the start token), parses both sides as
timestamps propagating either side's failure, and fails with "end is before
start" exactly when both sides parse with start > end (equal endpoints
accepted, parsed spans never swapped: the invariant start ≤ end holds for
every parsed span); an input with no dash — or one containing a newline,
which the dot of the pattern cannot match — fails with "doesn't contain a
dash". -/
theorem claim_C6_span_parsing :
    (∀ s : String, s.data.contains '-' = false →
        Span.from_str s = .err "doesn't contain a dash") ∧
    (∀ s : String, s.data.contains '\n' = true →
        Span.from_str s = .err "doesn't contain a dash") ∧
    (∀ (s : String) (a b : List Char), s.data = a ++ '-' :: b → '-' ∉ b →
        s.data.contains '\n' = false →
        Span.from_str s =
          (match Timestamp.fromChars a, Timestamp.fromChars b with
           | .err e, _ => .err e
           | .panic, _ => .panic
           | .ok _, .err e => .err e
           | .ok _, .panic => .panic
           | .ok st, .ok en =>
             if Timestamp.ltb en st then .err "end is before start" else .ok ⟨st, en⟩)) ∧
    (∀ (s : String) (sp : Span), Span.from_str s = .ok sp →
        Timestamp.leb sp.start sp.endT = true) := by
  refine ⟨?_, ?_, ?_, ?_⟩
  · intro s h
    unfold Span.from_str Span.fromChars
    rw [if_pos (by simp [contains_false_iff.mp h])]
  · intro s h
    unfold Span.from_str Span.fromChars
    rw [if_pos (by simp [contains_true_iff.mp h])]
  · intro s a b hs hb hn
    have hcont : s.data.contains '-' = true := by
      rw [contains_true_iff, hs]
      exact List.mem_append.mpr (Or.inr (List.mem_cons_self _ _))
    unfold Span.from_str Span.fromChars
    rw [if_neg (by simp [contains_false_iff.mp hn, contains_true_iff.mp hcont]), hs,
      splitAtLast_spec '-' a b hb]
    cases Timestamp.fromChars a <;> cases Timestamp.fromChars b <;> rfl
  · intro s sp h
    exact span_ok_invariant h

/-- C6 witness: the splitting clause applied at `"3-5"` and the no-dash
clause at `"35"`. -/
theorem claim_C6_witness :
    Span.from_str "3-5" =
      (match Timestamp.fromChars ['3'], Timestamp.fromChars ['5'] with
       | .err e, _ => .err e
       | .panic, _ => .panic
       | .ok _, .err e => .err e
       | .ok _, .panic => .panic
       | .ok st, .ok en =>
         if Timestamp.ltb en st then .err "end is before start" else .ok ⟨st, en⟩) ∧
    Span.from_str "35" = .err "doesn't contain a dash" :=
  ⟨claim_C6_span_parsing.2.2.1 "3-5" ['3'] ['5'] (by decide) (by decide) (by decide),
    claim_C6_span_parsing.1 "35" (by decide)⟩

/-- C9: the driver consumes exactly the sort (by the derived Span order) of
the file-derived spans concatenated, in order, with the argument-derived
spans; the sorted list is a permutation of the concatenation preserving
every span's multiplicity (no deduplication), it is pairwise ordered by
`Span.leb`, and the orders are lexicographic: Span compares start first
with end as tie-break, Timestamp compares (seconds, milliseconds). -/
theorem claim_C9_collect_sort :
    (∀ (fl cl : List String) (out : Option String) (file : String) (s1 s2 : List Span)
        (base ext : String), parse_spans fl = .ok s1 → parse_spans cl = .ok s2 →
        split_ext (out.getD file) = some (base, ext) →
        main_plan (some fl) cl out file =
          .ok ((sortSpans (s1 ++ s2)).enum.map
            (fun p => extraction_cmd (sortSpans (s1 ++ s2)).length base ext file p.1 p.2))) ∧
    (∀ l : List Span, (sortSpans l).Perm l) ∧
    (∀ l : List Span, List.Pairwise (fun a b => Span.leb a b = true) (sortSpans l)) ∧
    (∀ (l : List Span) (sp : Span), (sortSpans l).count sp = l.count sp) ∧
    (∀ a b : Span, Span.leb a b = true ↔
        (Timestamp.ltb a.start b.start = true ∨
          (a.start = b.start ∧ Timestamp.leb a.endT b.endT = true))) ∧
    (∀ x y : Timestamp, Timestamp.ltb x y = true ↔
        (x.seconds < y.seconds ∨ (x.seconds = y.seconds ∧ x.milliseconds < y.milliseconds))) ∧
    (∀ x y : Timestamp, Timestamp.leb x y = true ↔
        (x.seconds < y.seconds ∨ (x.seconds = y.seconds ∧ x.milliseconds ≤ y.milliseconds))) := by
  refine ⟨?_, fun l => List.mergeSort_perm l Span.leb,
    fun l => List.sorted_mergeSort Span.leb_trans Span.leb_total l,
    fun l sp => ((List.mergeSort_perm l Span.leb).count_eq sp), ?_,
    fun x y => Timestamp.ltb_iff, fun x y => Timestamp.leb_iff⟩
  · intro fl cl out file s1 s2 base ext h1 h2 hse
    unfold main_plan
    have hp : parse_spans ((Option.getD (some fl) []) ++ cl) = .ok (s1 ++ s2) :=
      parse_spans_append h1 h2
    rw [hp, hse]
  · intro a b
    simp [Span.leb]

/-- C9 witness: the driver clause applied to one file line and one clip
argument, with unsorted inputs 1-2 and 0-1. -/
theorem claim_C9_witness :
    main_plan (some ["1-2"]) ["0-1"] none "movie.mp4" =
      .ok ((sortSpans ([⟨⟨1, 0⟩, ⟨2, 0⟩⟩] ++ [⟨⟨0, 0⟩, ⟨1, 0⟩⟩])).enum.map
        (fun p => extraction_cmd
          (sortSpans ([⟨⟨1, 0⟩, ⟨2, 0⟩⟩] ++ [⟨⟨0, 0⟩, ⟨1, 0⟩⟩])).length
          "movie" "mp4" "movie.mp4" p.1 p.2)) :=
  claim_C9_collect_sort.1 ["1-2"] ["0-1"] none "movie.mp4"
    [⟨⟨1, 0⟩, ⟨2, 0⟩⟩] [⟨⟨0, 0⟩, ⟨1, 0⟩⟩] "movie" "mp4" (by decide) (by decide) (by decide)
